import Mathlib

/-!
Verification of the sdk-mcp-server Index + Search subsystem.

This file gives a shallow embedding, in Lean 4, of the indexing and search
core of the repository (src/indexer.py and src/search.py) and proves, or
refutes, the frozen specification claims about it.

Modelling conventions:
- Python strings that undergo character-level manipulation (paths, file
  names, file contents, query strings) are modelled as `List Char`
  (abbreviated `PyStr`); identifiers that are only compared for equality
  (AST names) stay `String`.
- Python dicts are insertion-ordered association lists with distinct keys;
  `dictSet` models `d[k] = v` (replace in place, else append) and
  `dictGet` models `d.get(k)`.
- The Python `ast` module (an external dependency) is modelled by the
  `PyNode` inductive, which covers exactly the node kinds the indexer
  inspects; `ast.walk` (breadth-first traversal) is `PyNode.walk`.
- The Python `re` module (an external dependency) is a parameter: a
  `RegexEngine` maps a pattern string to `none` (the `re.error` case) or to
  a matcher taking the IGNORECASE flag and a line.  A concrete executable
  engine faithful to `re` on the patterns used by the repository is given
  as `modelRe`.
- The filesystem read by the search engine is a parameter `FileSystem`
  mapping an SDK id to an optional directory, which maps a saved file name
  to optional content (a list of lines).
-/

/-- Python strings, viewed as their character sequences. -/
abbrev PyStr := List Char

/-- Python whitespace characters as recognised by `str.strip` and `\s`
(newline cannot occur inside a split line but is included for fidelity). -/
def isPySpace (c : Char) : Bool :=
  c = ' ' || c = '\t' || c = '\n' || c = '\r' || c = '\x0b' || c = '\x0c'

/-- Model of Python `str.lower` (character-wise lowering). -/
def pyLower (s : PyStr) : PyStr := s.map Char.toLower

/-- Model of Python `str.strip` with no arguments: drop leading and
trailing whitespace. -/
def pyStrip (s : PyStr) : PyStr :=
  ((s.dropWhile isPySpace).reverse.dropWhile isPySpace).reverse

/-- Indentation width of a line: `len(line) - len(line.lstrip())`. -/
def indentOf (s : PyStr) : Nat := (s.takeWhile isPySpace).length

/-- Model of the Python test `line.strip() == ""`: the line is blank
(consists of whitespace only). -/
def isBlankLine (s : PyStr) : Bool := s.all isPySpace

/-- Decimal rendering of a line number, as Python string formatting does. -/
def natToStr (n : Nat) : PyStr := (Nat.repr n).toList

/-- Model of Python dict assignment `d[k] = v` on an insertion-ordered
association list: replace the value at the first occurrence of `k`,
keeping its position, or append `(k, v)` if `k` is absent. -/
def dictSet {κ α : Type} [DecidableEq κ] : List (κ × α) → κ → α → List (κ × α)
  | [], k, v => [(k, v)]
  | p :: rest, k, v => if p.1 = k then (k, v) :: rest else p :: dictSet rest k v

/-- Model of Python `d.get(k)` on an insertion-ordered association list:
the value at the first occurrence of `k`, if any. -/
def dictGet {κ α : Type} [DecidableEq κ] : List (κ × α) → κ → Option α
  | [], _ => none
  | p :: rest, k => if p.1 = k then some p.2 else dictGet rest k

/-- Keys of an association list, in order. -/
def dictKeys {κ α : Type} (d : List (κ × α)) : List κ := d.map Prod.fst

/-!
Model of the Python `ast` nodes inspected by `src/indexer.py`.

In the Python `ast` module, `AsyncFunctionDef` is a sibling class of
`FunctionDef` (both derive from `stmt`); `isinstance(x, ast.FunctionDef)`
is False for an `AsyncFunctionDef` node.  The model keeps them as distinct
constructors for exactly that reason.  Base-class expressions, decorators
and other node kinds the indexer never branches on are subsumed by the
`other` constructor; import statements get their own constructors because
`_extract_imports` branches on them.
-/

inductive PyNode : Type where
  | module : List PyNode → PyNode
  | classDef : String → Nat → List PyNode → PyNode
  | funcDef : String → Nat → List PyNode → PyNode
  | asyncFuncDef : String → Nat → List PyNode → PyNode
  | importNode : List String → Nat → PyNode
  | importFrom : Option String → List String → Nat → PyNode
  | other : List PyNode → PyNode
deriving Repr

/-- Child nodes, as `ast.iter_child_nodes` yields them for the fields the
model keeps. -/
def PyNode.children : PyNode → List PyNode
  | .module body => body
  | .classDef _ _ body => body
  | .funcDef _ _ body => body
  | .asyncFuncDef _ _ body => body
  | .importNode _ _ => []
  | .importFrom _ _ _ => []
  | .other body => body

/-- Breadth-first traversal of a queue of nodes: each dequeued node is
yielded and its children are enqueued, exactly as `ast.walk` does. -/
def walkQueue : List PyNode → List PyNode
  | [] => []
  | n :: rest => n :: walkQueue (rest ++ n.children)
termination_by l => sizeOf l
decreasing_by
  have h1 : sizeOf n.children ≤ sizeOf n := by
    cases n <;> simp [PyNode.children] <;> omega
  have h2 : ∀ (l₁ l₂ : List PyNode), sizeOf (l₁ ++ l₂) + 1 = sizeOf l₁ + sizeOf l₂ := by
    intro l₁ l₂
    induction l₁ with
    | nil => simp only [List.nil_append, List.nil.sizeOf_spec]; omega
    | cons a l ih => simp only [List.cons_append, List.cons.sizeOf_spec]; omega
  have h3 := h2 rest n.children
  simp only [List.cons.sizeOf_spec]
  omega

/-- Model of `ast.walk(tree)`: the tree node followed by all descendants in
breadth-first order. -/
def PyNode.walk (tree : PyNode) : List PyNode := walkQueue [tree]

/-- Tests `isinstance(node, ast.FunctionDef)`; an `AsyncFunctionDef` node
is not a `FunctionDef`. -/
def PyNode.isFunctionDef : PyNode → Bool
  | .funcDef _ _ _ => true
  | _ => false

/-- Tests `isinstance(node, ast.AsyncFunctionDef)`. -/
def PyNode.isAsyncFuncDef : PyNode → Bool
  | .asyncFuncDef _ _ _ => true
  | _ => false

/-- Tests `isinstance(node, ast.Module)`. -/
def PyNode.isModule : PyNode → Bool
  | .module _ => true
  | _ => false

/-- Name carried by a definition node (`node.name`). -/
def PyNode.defName : PyNode → String
  | .classDef s _ _ => s
  | .funcDef s _ _ => s
  | .asyncFuncDef s _ _ => s
  | _ => ""

/-- Line number carried by a node (`node.lineno`). -/
def PyNode.lineno : PyNode → Nat
  | .classDef _ l _ => l
  | .funcDef _ l _ => l
  | .asyncFuncDef _ l _ => l
  | .importNode _ l => l
  | .importFrom _ _ l => l
  | _ => 0

/-- Model of `getattr(node, "_parent", None)` in `_extract_functions`:
no code anywhere in the repository ever sets a `_parent` attribute on an
AST node, so the lookup always yields `None`. -/
def nodeParent (_node : PyNode) : Option PyNode := none

/-- One entry of `file_info["functions"]`: the dict
`{"name": ..., "line": ..., "async": ...}` built at indexer.py:158-162.
`isAsync` models the `"async"` key. -/
structure FuncInfo where
  name : String
  line : Nat
  isAsync : Bool
deriving Repr, DecidableEq

/-- One entry of a class record's `"methods"` list (indexer.py:140-143). -/
structure MethodInfo where
  name : String
  line : Nat
deriving Repr, DecidableEq

/-- One entry of `file_info["classes"]` (indexer.py:130-135).  The
`"bases"` key (resolved via `_get_name`) is not modelled: no claim
concerns base-class references. -/
structure ClassInfo where
  name : String
  line : Nat
  methods : List MethodInfo
deriving Repr, DecidableEq

/-- Model of `SDKIndexer._extract_functions` (indexer.py:149-164): walk
every node; for each `FunctionDef`, read the never-set `_parent`
attribute, and since it defaults to `None` the top-level test passes;
record name, line and `isinstance(node, ast.AsyncFunctionDef)`. -/
def extract_functions (tree : PyNode) : List FuncInfo :=
  (tree.walk).foldl
    (fun functions node =>
      if node.isFunctionDef then
        match nodeParent node with
        | none => functions ++ [⟨node.defName, node.lineno, node.isAsyncFuncDef⟩]
        | some parent =>
          if parent.isModule then
            functions ++ [⟨node.defName, node.lineno, node.isAsyncFuncDef⟩]
          else functions
      else functions)
    []

/-- Model of `SDKIndexer._extract_classes` (indexer.py:124-147): walk every
node; for each `ClassDef`, record name, line and the direct body items
that are `FunctionDef` (an async method is not an `ast.FunctionDef` and is
therefore not recorded). -/
def extract_classes (tree : PyNode) : List ClassInfo :=
  (tree.walk).foldl
    (fun classes node =>
      match node with
      | .classDef name line body =>
        classes ++ [⟨name, line,
          body.foldl
            (fun methods item =>
              match item with
              | .funcDef mname mline _ => methods ++ [⟨mname, mline⟩]
              | _ => methods)
            []⟩]
      | _ => classes)
    []

/-- Model of `SDKIndexer._extract_imports` (indexer.py:166-179). -/
def extract_imports (tree : PyNode) : List String :=
  (tree.walk).foldl
    (fun imports node =>
      match node with
      | .importNode names _ => imports ++ names
      | .importFrom mod names _ =>
        imports ++ names.map (fun nm => (mod.getD "") ++ "." ++ nm)
      | _ => imports)
    []

/-!
Model of the SDK index data (indexer.py:17-75 and 89-122).
-/

/-- Value stored in `index["functions"]` (indexer.py:65-68): only `file`
and `line`; the per-file `"async"` flag is not copied into this map. -/
structure FuncLoc where
  file : PyStr
  line : Nat
deriving Repr, DecidableEq

/-- Value stored in `index["classes"]` (indexer.py:57-61). -/
structure ClassLoc where
  file : PyStr
  line : Nat
  methods : List MethodInfo
deriving Repr, DecidableEq

/-- Model of `file_info` as built by `_analyze_file` and completed by
`index_sdk` (indexer.py:50 and 103-111). -/
structure FileInfo where
  relative_path : PyStr
  original_path : PyStr
  classes : List ClassInfo
  functions : List FuncInfo
  imports : List String
  size : Nat
  lines : Nat
  saved_as : PyStr
deriving Repr, DecidableEq

/-- Model of one index dict (indexer.py:19-29). -/
structure SdkIndex where
  sdk_id : PyStr
  name : PyStr
  description : PyStr
  files : List FileInfo
  classes : List (String × ClassLoc)
  functions : List (String × FuncLoc)
  file_map : List (PyStr × PyStr)
  concepts : List (PyStr × List PyStr)
deriving Repr, DecidableEq

/-- The slice of an SDK configuration dict that `index_sdk` reads
(`name`, `description`, `concepts`); `none` models an absent key, so
`config.get("name", sdk_id)` is `(cfg.name).getD sdk_id`.  File selection
patterns are consumed by the File Selector, which is modelled by passing
`index_sdk` the already-selected file list. -/
structure SdkConfig where
  name : Option PyStr
  description : Option PyStr
  concepts : List (PyStr × List PyStr)
deriving Repr, DecidableEq

/-- One source file as handed to `_analyze_file`: its path data, raw
content, and the result of `ast.parse` (`none` models a `SyntaxError`,
the degraded path of indexer.py:118-120).  Parsing itself belongs to the
external `ast` module, so the parse result is part of the input. -/
structure SourceFile where
  relative_path : PyStr
  original_path : PyStr
  content : PyStr
  parsed : Option PyNode
deriving Repr

/-- The `SDKIndexer` object state: its `indices` dict (indexer.py:15). -/
structure Indexer where
  indices : List (PyStr × SdkIndex)
deriving Repr, DecidableEq

/-- Model of `SDKIndexer._generate_saved_name` (indexer.py:89-96):
replace `/` and `\` with `_`, strip a trailing `.py`, then wrap as
`f"{sdk_id}_{name}.md"`. -/
def generate_saved_name (relative_path : PyStr) (sdk_id : PyStr) : PyStr :=
  let name := relative_path.map (fun c => if c = '/' then '_' else c)
  let name := name.map (fun c => if c = '\\' then '_' else c)
  let name := if (".py".toList).isSuffixOf name then name.take (name.length - 3) else name
  sdk_id ++ "_".toList ++ name ++ ".md".toList

/-- The character flattening performed on a path with no backslashes:
the separator `/` becomes `_`, every other character is kept. -/
def sepFlat (c : Char) : Char := if c = '/' then '_' else c

/-- Model of `SDKIndexer._analyze_file` (indexer.py:98-122).  File reads
cannot fail in the model (content is given), matching the successful-read
path; `saved_as` is filled in later by `index_sdk`. -/
def analyze_file (sf : SourceFile) : FileInfo :=
  { relative_path := sf.relative_path
    original_path := sf.original_path
    classes := match sf.parsed with | some tree => extract_classes tree | none => []
    functions := match sf.parsed with | some tree => extract_functions tree | none => []
    imports := match sf.parsed with | some tree => extract_imports tree | none => []
    size := sf.content.length
    lines := sf.content.count '\n' + 1
    saved_as := [] }

/-- Model of `SDKIndexer.index_sdk` (indexer.py:17-75).  The File
Selector part (glob expansion, exclusion, sorted deduplication,
indexer.py:31-43) is modelled by taking the selected file list as the
`files` argument; the per-file exception path (indexer.py:70-72) cannot
trigger in the model since file contents are given.  The function builds
the index dict, stores it in `self.indices[sdk_id]`, and returns it. -/
def index_sdk (ixr : Indexer) (sdk_id : PyStr) (files : List SourceFile)
    (config : SdkConfig) : SdkIndex × Indexer :=
  let index0 : SdkIndex :=
    { sdk_id := sdk_id
      name := config.name.getD sdk_id
      description := config.description.getD []
      files := []
      classes := []
      functions := []
      file_map := []
      concepts := config.concepts }
  let index := files.foldl
    (fun idx sf =>
      let fi := analyze_file sf
      let saved_name := generate_saved_name fi.relative_path sdk_id
      let fi := { fi with saved_as := saved_name }
      let idx := { idx with
        files := idx.files ++ [fi]
        file_map := dictSet idx.file_map saved_name fi.relative_path }
      let idx := fi.classes.foldl
        (fun idx cls =>
          { idx with classes := dictSet idx.classes cls.name ⟨saved_name, cls.line, cls.methods⟩ })
        idx
      let idx := fi.functions.foldl
        (fun idx fn =>
          { idx with functions := dictSet idx.functions fn.name ⟨saved_name, fn.line⟩ })
        idx
      idx)
    index0
  (index, ⟨dictSet ixr.indices sdk_id index⟩)

/-- Model of `SDKIndexer.get_index` (indexer.py:190-192). -/
def get_index (ixr : Indexer) (sdk_id : PyStr) : Option SdkIndex :=
  dictGet ixr.indices sdk_id

/-!
Persistence (indexer.py:194-213).  A directory is an ordered list of
(file name, record) pairs.  A record models what `json.load` would do on
the file: `malformed` raises `json.JSONDecodeError`; `wellFormed`
produces an index dict.  Serialising an index with `json.dump` and
parsing it back is the identity on the structured value, so `save`
writes `wellFormed` records directly.
-/

inductive DiskRecord : Type where
  | malformed : DiskRecord
  | wellFormed : SdkIndex → DiskRecord
deriving Repr, DecidableEq

/-- Model of `SDKIndexer.save_indices` (indexer.py:194-201): one record
per held index, named `f"{sdk_id}_index.json"`, in dict order.  Directory
creation and overwriting are outside the model (the result is the
directory content produced by the writes). -/
def save_indices (ixr : Indexer) : List (PyStr × DiskRecord) :=
  ixr.indices.map (fun p => (p.1 ++ "_index.json".toList, .wellFormed p.2))

/-- Model of `SDKIndexer.load_indices` (indexer.py:203-213): scan the
records matching `*_index.json` in directory order; `json.load` on a
malformed record raises, which no handler catches, so the scan stops
there; a parsed index is installed under its own `"sdk_id"` value when
that value is truthy (a non-empty string).  Returns the indexer state
after the records actually processed, together with the escaped
exception if one was raised.  A non-existent directory (modelled as the
empty listing) simply yields no records. -/
def load_indices (ixr : Indexer) : List (PyStr × DiskRecord) → Indexer × Option PyStr
  | [] => (ixr, none)
  | (fname, rec) :: rest =>
    if ("_index.json".toList).isSuffixOf fname then
      match rec with
      | .malformed => (ixr, some "json.JSONDecodeError".toList)
      | .wellFormed idx =>
        if idx.sdk_id ≠ [] then
          load_indices ⟨dictSet ixr.indices idx.sdk_id idx⟩ rest
        else
          load_indices ixr rest
    else
      load_indices ixr rest

/-!
Model of `src/search.py`.

`SDKSearchEngine` holds a reference to the indexer and reads flattened
documents under `data/<sdk_id>/<saved_name>`.  The filesystem and the
`re` module are external, so both are parameters.
-/

/-- The documents area: an SDK id maps to `none` when
`data/<sdk_id>` does not exist, else to the directory, which maps a saved
file name to `none` when that file does not exist, else to its content as
a list of lines (without trailing newlines). -/
abbrev FileSystem := PyStr → Option (PyStr → Option (List PyStr))

/-- Model of `re.compile`: `none` models `re.error`; a compiled pattern is
a matcher taking the IGNORECASE flag and a line and returning the
truthiness of `pattern.search(line)`.  Whether compilation fails depends
only on the pattern text, as in `re`. -/
abbrev RegexEngine := PyStr → Option (Bool → PyStr → Bool)

/-- The keyword options read by `search_code` (search.py:23-25), with
their Python defaults. -/
structure SearchOptions where
  case_sensitive : Bool
  max_results_per_file : Nat
  regex : Bool
deriving Repr, DecidableEq

/-- The prepared pattern of search.py:27-34: a compiled regex (already
specialised to the IGNORECASE flag), or the literal query (already
lowered when case-insensitive). -/
inductive PreparedPattern : Type where
  | rx : (PyStr → Bool) → PreparedPattern
  | lit : PyStr → PreparedPattern

/-- Model of the Python substring test `sub in s`: `sub` occurs as a
contiguous run inside `s`. -/
def containsSub (s sub : PyStr) : Bool := decide (sub <:+: s)

/-- Model of `SDKSearchEngine._line_matches` (search.py:72-78). -/
def line_matches (line : PyStr) (pattern : PreparedPattern) (case_sensitive : Bool) : Bool :=
  match pattern with
  | .rx test => test line
  | .lit q =>
    let search_line := if case_sensitive then line else pyLower line
    containsSub search_line q

/-- Match line formatting `f"Line {line_num}: {line.strip()}"`
(search.py:64). -/
def formatMatch (line_num : Nat) (line : PyStr) : PyStr :=
  "Line ".toList ++ natToStr line_num ++ ": ".toList ++ pyStrip line

/-- The loop of `_search_file` (search.py:62-66): accumulate formatted
matches; after appending, stop as soon as `len(matches) >= max_results`. -/
def search_file_loop (pattern : PreparedPattern) (case_sensitive : Bool)
    (max_results : Nat) (acc : List PyStr) (line_num : Nat) :
    List PyStr → List PyStr
  | [] => acc
  | line :: rest =>
    if line_matches line pattern case_sensitive then
      let acc := acc ++ [formatMatch line_num line]
      if max_results ≤ acc.length then acc
      else search_file_loop pattern case_sensitive max_results acc (line_num + 1) rest
    else search_file_loop pattern case_sensitive max_results acc (line_num + 1) rest

/-- Model of `SDKSearchEngine._search_file` (search.py:56-70) on a
readable file, given as its list of lines; line numbers start at 1.  The
read-failure path (search.py:67-68) cannot trigger since content is
given. -/
def search_file (lines : List PyStr) (pattern : PreparedPattern)
    (case_sensitive : Bool) (max_results : Nat) : List PyStr :=
  search_file_loop pattern case_sensitive max_results [] 1 lines

/-- The per-file scan of search.py:41-52: for each indexed file record,
skip a falsy (empty) `saved_as`, skip files absent from the data
directory, and record non-empty match lists under the saved name. -/
def search_code_scan (dir : PyStr → Option (List PyStr)) (files : List FileInfo)
    (pattern : PreparedPattern) (case_sensitive : Bool) (max_results : Nat) :
    List (PyStr × List PyStr) :=
  files.foldl
    (fun results fi =>
      if fi.saved_as = [] then results
      else
        match dir fi.saved_as with
        | none => results
        | some lines =>
          let found := search_file lines pattern case_sensitive max_results
          if found ≠ [] then dictSet results fi.saved_as found else results)
    []

/-- Model of `SDKSearchEngine.search_code` (search.py:16-54).  An absent
index yields `{}` (a held index dict is never empty, so Python dict
truthiness reduces to presence); in regex mode the pattern is compiled
before the data directory is consulted, and a compile failure yields the
single-entry error dict; an absent data directory yields `{}`. -/
def search_code (ixr : Indexer) (rengine : RegexEngine) (fsys : FileSystem)
    (sdk_id : PyStr) (query : PyStr) (opts : SearchOptions) :
    List (PyStr × List PyStr) :=
  match get_index ixr sdk_id with
  | none => []
  | some index =>
    if opts.regex then
      match rengine query with
      | none => [("error".toList, ["Invalid regex pattern".toList])]
      | some compiled =>
        let pattern := PreparedPattern.rx (compiled (!opts.case_sensitive))
        match fsys sdk_id with
        | none => []
        | some dir =>
          search_code_scan dir index.files pattern opts.case_sensitive opts.max_results_per_file
    else
      let pattern := PreparedPattern.lit (if opts.case_sensitive then query else pyLower query)
      match fsys sdk_id with
      | none => []
      | some dir =>
        search_code_scan dir index.files pattern opts.case_sensitive opts.max_results_per_file

/-- Model of `SDKSearchEngine.search_all_sdks` (search.py:80-89): iterate
the indexer's keys in insertion order and keep non-empty per-SDK
results. -/
def search_all_sdks (ixr : Indexer) (rengine : RegexEngine) (fsys : FileSystem)
    (query : PyStr) (opts : SearchOptions) :
    List (PyStr × List (PyStr × List PyStr)) :=
  ixr.indices.foldl
    (fun all_results p =>
      let results := search_code ixr rengine fsys p.1 query opts
      if results ≠ [] then dictSet all_results p.1 results else all_results)
    []

/-- Extend `all_results[file]` with `matches`, creating the entry first
when absent (search.py:177-180). -/
def dictExtend (d : List (PyStr × List PyStr)) (file : PyStr) (ms : List PyStr) :
    List (PyStr × List PyStr) :=
  match dictGet d file with
  | none => dictSet (dictSet d file []) file ([] ++ ms)
  | some olds => dictSet d file (olds ++ ms)

/-- Model of `SDKSearchEngine.find_examples` (search.py:163-182): five
regex queries derived from `topic`, each through `search_code` with
`regex=True, max_results_per_file=5`, accumulated per file with
`list.extend` (no deduplication). -/
def find_examples (ixr : Indexer) (rengine : RegexEngine) (fsys : FileSystem)
    (sdk_id : PyStr) (topic : PyStr) : List (PyStr × List PyStr) :=
  let patterns : List PyStr :=
    [ "def.*".toList ++ topic
    , "class.*".toList ++ topic
    , topic ++ "\\s*\\(".toList
    , "@".toList ++ topic
    , "self\\.".toList ++ topic ]
  patterns.foldl
    (fun all_results pattern =>
      let results := search_code ixr rengine fsys sdk_id pattern ⟨false, 5, true⟩
      results.foldl (fun acc fm => dictExtend acc fm.1 fm.2) all_results)
    []

/-- The body-collection loop of `_extract_class_from_content`
(search.py:148-159): blank lines are appended unconditionally; a
non-blank line is appended while its indentation exceeds the base, and
the first non-blank line at indentation at most the base stops the
loop. -/
def collectClassBody (base_indent : Nat) : List PyStr → List PyStr
  | [] => []
  | line :: rest =>
    if pyStrip line = [] then line :: collectClassBody base_indent rest
    else if indentOf line ≤ base_indent ∧ pyStrip line ≠ [] then []
    else line :: collectClassBody base_indent rest

/-- Model of `SDKSearchEngine._extract_class_from_content`
(search.py:130-161).  The `start_line` argument is accepted and ignored,
as in the source. -/
def extract_class_from_content (content : PyStr) (class_name : PyStr)
    (start_line : Nat) : PyStr :=
  let _ := start_line
  let lines := content.splitOn '\n'
  match lines.findIdx? (fun line => containsSub line ("class ".toList ++ class_name)) with
  | none => "Class ".toList ++ class_name ++ " not found in file".toList
  | some class_start =>
    let decl := lines.getD class_start []
    let base_indent := indentOf decl
    let result_lines := decl :: collectClassBody base_indent (lines.drop (class_start + 1))
    List.intercalate ['\n'] result_lines

/-!
An executable regex engine, modelling the Python `re` module on the
pattern subset the repository ever builds: literal characters, escaped
metacharacters (`\.` `\(`), the class `\s`, the wildcard `.`, and the
Kleene star applied to one atom (as in `.*` and `\s*`).  Patterns using
constructs outside this subset are rejected (`none`), as is a dangling
backslash or a star with nothing to repeat; `(` alone is also invalid for
the real `re`, which makes the model usable as a witness for the
invalid-pattern path.  Matching implements `pattern.search`: an
unanchored match attempt at every start position, with `.` not matching a
newline and IGNORECASE as character-wise lowering.
-/

inductive RTok : Type where
  | lit : Char → RTok
  | spaceClass : RTok
  | anyChar : RTok
  | star : RTok → RTok
deriving Repr, DecidableEq

/-- Escaped characters: `\s` is the whitespace class; any other escaped
character stands for itself (the subset used escapes only `.` and `(`). -/
def escTok (c : Char) : RTok := if c = 's' then .spaceClass else .lit c

/-- Metacharacters outside the modelled subset; a pattern using one
unescaped is rejected. -/
def regexMeta (c : Char) : Bool :=
  c = '(' || c = ')' || c = '[' || c = ']' || c = '{' || c = '}' ||
  c = '+' || c = '?' || c = '|' || c = '^' || c = '$' || c = '*'

def parseRegex : List Char → Option (List RTok)
  | [] => some []
  | '\\' :: [] => none
  | '\\' :: c :: '*' :: rest => (parseRegex rest).map (fun ts => .star (escTok c) :: ts)
  | '\\' :: c :: rest => (parseRegex rest).map (fun ts => escTok c :: ts)
  | '.' :: '*' :: rest => (parseRegex rest).map (fun ts => .star .anyChar :: ts)
  | '.' :: rest => (parseRegex rest).map (fun ts => .anyChar :: ts)
  | c :: '*' :: rest =>
    if regexMeta c then none else (parseRegex rest).map (fun ts => .star (.lit c) :: ts)
  | c :: rest =>
    if regexMeta c then none else (parseRegex rest).map (fun ts => .lit c :: ts)

/-- Whether a single (non-star) token matches one character. -/
def tokMatchesChar (t : RTok) (ign : Bool) (c : Char) : Bool :=
  match t with
  | .lit a => if ign then a.toLower = c.toLower else a = c
  | .spaceClass => isPySpace c
  | .anyChar => c ≠ '\n'
  | .star _ => false

/-- Closure of an active state (a suffix of the token sequence) under
skipping stars: a star may consume zero characters. -/
def starClosure : List RTok → List (List RTok)
  | .star t :: ts => (.star t :: ts) :: starClosure ts
  | ts => [ts]

/-- Successors of one active state on one character: a starred atom that
matches keeps the state (the star consumes the character), a plain atom
that matches advances past it. -/
def stepTok (ign : Bool) (c : Char) : List RTok → List (List RTok)
  | [] => []
  | .star t :: ts => if tokMatchesChar t ign c then [.star t :: ts] else []
  | t :: ts => if tokMatchesChar t ign c then [ts] else []

/-- One character step over the whole active-state set. -/
def stepStates (ign : Bool) (c : Char) (states : List (List RTok)) : List (List RTok) :=
  (states.flatMap (stepTok ign c)).flatMap starClosure

/-- Run of the state machine: the match succeeds as soon as some active
state has consumed all tokens (a regex match takes any prefix of the
remaining text). -/
def runMatch (ign : Bool) : List (List RTok) → List Char → Bool
  | states, [] => states.any (fun st => st.isEmpty)
  | states, c :: cs =>
    states.any (fun st => st.isEmpty) || runMatch ign (stepStates ign c states) cs

/-- Anchored match of the token sequence against a prefix of the text. -/
def matchToks (ign : Bool) (ts : List RTok) (cs : List Char) : Bool :=
  runMatch ign (starClosure ts) cs

/-- Unanchored search, as `pattern.search` does: try an anchored match at
every start position. -/
def reSearch (ign : Bool) (ts : List RTok) : List Char → Bool
  | [] => matchToks ign ts []
  | c :: cs => matchToks ign ts (c :: cs) || reSearch ign ts cs

/-- The concrete regex engine built from the mini matcher. -/
def modelRe : RegexEngine := fun pattern =>
  (parseRegex pattern).map (fun ts ign line => reSearch ign ts line)

/-!
Inhabitants of the model types (keeps instance search short in proofs
that quantify over them).
-/

instance : Inhabited PyNode := ⟨.module []⟩

instance : Inhabited FuncInfo := ⟨⟨"", 0, false⟩⟩

instance : Inhabited MethodInfo := ⟨⟨"", 0⟩⟩

instance : Inhabited ClassInfo := ⟨⟨"", 0, []⟩⟩

instance : Inhabited FuncLoc := ⟨⟨[], 0⟩⟩

instance : Inhabited ClassLoc := ⟨⟨[], 0, []⟩⟩

instance : Inhabited FileInfo := ⟨⟨[], [], [], [], [], 0, 0, []⟩⟩

instance : Inhabited SdkIndex := ⟨⟨[], [], [], [], [], [], [], []⟩⟩

instance : Inhabited SdkConfig := ⟨⟨none, none, []⟩⟩

instance : Inhabited SourceFile := ⟨⟨[], [], [], none⟩⟩

instance : Inhabited Indexer := ⟨⟨[]⟩⟩

instance : Inhabited DiskRecord := ⟨.malformed⟩

instance : Inhabited RTok := ⟨.anyChar⟩

/-!
Theorems.  General lemmas about the dict model come first, then each
claim of the specification gets one theorem (with a counterexample
theorem where the claim as stated fails on the code).
-/

theorem dictGet_dictSet {κ α : Type} [DecidableEq κ]
    (d : List (κ × α)) (k : κ) (v : α) (k' : κ) :
    dictGet (dictSet d k v) k' = if k = k' then some v else dictGet d k' := by
  induction d with
  | nil => simp [dictSet, dictGet]
  | cons p rest ih =>
    by_cases hpk : p.1 = k
    · subst hpk
      by_cases hk' : p.1 = k' <;> simp [dictSet, dictGet, hk']
    · by_cases hk' : p.1 = k'
      · subst hk'
        simp [dictSet, dictGet, hpk]
        rw [if_neg (fun h => hpk h.symm)]
      · simp [dictSet, dictGet, hpk, hk', ih]

theorem dictKeys_dictSet_of_mem {κ α : Type} [DecidableEq κ]
    (d : List (κ × α)) (k : κ) (v : α) :
    k ∈ dictKeys d → dictKeys (dictSet d k v) = dictKeys d := by
  induction d with
  | nil => intro hk; simp [dictKeys] at hk
  | cons p rest ih =>
    intro hk
    by_cases hpk : p.1 = k
    · simp [dictSet, hpk, dictKeys]
    · have hk' : k ∈ dictKeys rest := by
        have hor : k = p.1 ∨ k ∈ dictKeys rest := by simpa [dictKeys] using hk
        rcases hor with h | h
        · exact absurd h.symm hpk
        · exact h
      have hrec := ih hk'
      simp [dictSet, hpk, dictKeys] at hrec ⊢
      exact hrec

theorem dictKeys_dictSet_of_not_mem {κ α : Type} [DecidableEq κ]
    (d : List (κ × α)) (k : κ) (v : α) :
    k ∉ dictKeys d → dictKeys (dictSet d k v) = dictKeys d ++ [k] := by
  induction d with
  | nil => intro _; simp [dictSet, dictKeys]
  | cons p rest ih =>
    intro hk
    have hpk : p.1 ≠ k := by
      intro h; exact hk (by simp [dictKeys, h])
    have hk' : k ∉ dictKeys rest := fun h => hk (by simp [dictKeys] at h ⊢; exact Or.inr h)
    have hrec := ih hk'
    simp [dictSet, hpk, dictKeys] at hrec ⊢
    exact hrec

theorem dictGet_isSome_of_mem_keys {κ α : Type} [DecidableEq κ]
    (d : List (κ × α)) (k : κ) :
    k ∈ dictKeys d → (dictGet d k).isSome := by
  induction d with
  | nil => intro hk; simp [dictKeys] at hk
  | cons p rest ih =>
    intro hk
    by_cases hpk : p.1 = k
    · simp [dictGet, hpk]
    · have hk' : k ∈ dictKeys rest := by
        have hor : k = p.1 ∨ k ∈ dictKeys rest := by simpa [dictKeys] using hk
        rcases hor with h | h
        · exact absurd h.symm hpk
        · exact h
      simp [dictGet, hpk]
      exact ih hk'

/-- C1: the claim states that each callable in the callables map carries an
`isAsynchronous` flag that is true iff the callable was declared
asynchronous, and that indexing a single-file SDK with an asynchronous
top-level `helper` at line 20 yields `callables["helper"] == {line: 20,
isAsynchronous: true}`.  The code refutes this: `_extract_functions`
matches nodes with `isinstance(node, ast.FunctionDef)`, which is false for
`ast.AsyncFunctionDef` nodes, so an asynchronous function is never
extracted at all (and the dead `"async"` tag is always false); the built
index records nothing for `helper`. -/
theorem c1_async_callable_dropped :
    extract_functions (.module [.asyncFuncDef "helper" 20 []]) = [] ∧
    dictGet (index_sdk ⟨[]⟩ "widget".toList
      [⟨"widget.py".toList, "/tmp/widget.py".toList, [],
        some (.module [.asyncFuncDef "helper" 20 []])⟩]
      ⟨none, none, []⟩).1.functions "helper" = none := by
  constructor
  · simp [extract_functions, PyNode.walk, walkQueue, PyNode.children, PyNode.isFunctionDef]
  · simp [index_sdk, analyze_file, extract_functions, extract_classes, extract_imports,
      PyNode.walk, walkQueue, PyNode.children, PyNode.isFunctionDef, dictGet]

/-- C2: the claim states that a function declaration appears in the
extracted callables iff its immediate syntax-tree parent is the file
root, so a method is never reported as a callable of the file.  The code
refutes this: `_extract_functions` reads `getattr(node, "_parent", None)`,
but nothing ever sets `_parent`, so the guard always passes and the method
`run` of class `Widget` is reported as a file-level callable. -/
theorem c2_method_collected_as_top_level :
    extract_functions (.module [.classDef "Widget" 1 [.funcDef "run" 5 []]]) =
      [⟨"run", 5, false⟩] := by
  simp [extract_functions, PyNode.walk, walkQueue, PyNode.children, PyNode.isFunctionDef,
    nodeParent, PyNode.defName, PyNode.lineno, PyNode.isAsyncFuncDef]

/-- C3 counterexample: the claim states that `index_sdk` leaves the
store's sdkId-to-index mapping unchanged.  Refuted: building an SDK into
an empty indexer changes its `indices` dict. -/
theorem c3_build_mutates_store :
    (index_sdk ⟨[]⟩ "s".toList [] ⟨none, none, []⟩).2.indices ≠
      (⟨[]⟩ : Indexer).indices := by
  decide

/-- C3 amended: `index_sdk` returns the fully built index and also
installs it into the store: after the call the store maps `sdk_id` to the
returned index, and every other key is unchanged (the call still writes
nothing to disk). -/
theorem c3_build_installs_index (ixr : Indexer) (sdk_id : PyStr)
    (files : List SourceFile) (config : SdkConfig) :
    dictGet (index_sdk ixr sdk_id files config).2.indices sdk_id =
      some (index_sdk ixr sdk_id files config).1 ∧
    ∀ k, k ≠ sdk_id →
      dictGet (index_sdk ixr sdk_id files config).2.indices k = dictGet ixr.indices k := by
  constructor
  · simp [index_sdk, dictGet_dictSet]
  · intro k hk
    simp [index_sdk, dictGet_dictSet]
    intro h; exact absurd h.symm hk

/-- Witness for C3 at a concrete build. -/
theorem c3_build_installs_index_witness :
    dictGet (index_sdk ⟨[]⟩ "s".toList [] ⟨none, none, []⟩).2.indices "s".toList =
      some (index_sdk ⟨[]⟩ "s".toList [] ⟨none, none, []⟩).1 ∧
    dictGet (index_sdk ⟨[]⟩ "s".toList [] ⟨none, none, []⟩).2.indices "t".toList =
      dictGet (⟨[]⟩ : Indexer).indices "t".toList :=
  ⟨(c3_build_installs_index ⟨[]⟩ "s".toList [] ⟨none, none, []⟩).1,
   (c3_build_installs_index ⟨[]⟩ "s".toList [] ⟨none, none, []⟩).2 "t".toList (by decide)⟩

/-- C7 counterexample: the claim states the saved-name derivation is
injective over relative paths within one SDK.  Refuted: the paths
`a/b.py` and `a_b.py` are distinct yet collide on `sdk_a_b.md`, because
the separator and the flattening character are conflated. -/
theorem c7_saved_name_collision :
    generate_saved_name "a/b.py".toList "sdk".toList =
      generate_saved_name "a_b.py".toList "sdk".toList ∧
    "a/b.py".toList ≠ "a_b.py".toList := by decide

theorem sepFlat_inj {a b : Char} (ha : a ≠ '_') (hb : b ≠ '_') :
    sepFlat a = sepFlat b → a = b := by
  unfold sepFlat
  by_cases h1 : a = '/' <;> by_cases h2 : b = '/' <;> simp [h1, h2]
  · intro h; exact absurd h.symm hb
  · intro h; exact absurd h ha

theorem map_sepFlat_inj : ∀ (p q : PyStr), '_' ∉ p → '_' ∉ q →
    p.map sepFlat = q.map sepFlat → p = q := by
  intro p
  induction p with
  | nil => intro q _ _ h; cases q with
    | nil => rfl
    | cons b bs => simp at h
  | cons a as ih =>
    intro q hp hq h
    cases q with
    | nil => simp at h
    | cons b bs =>
      simp only [List.map_cons, List.cons.injEq] at h
      have ha : a ≠ '_' := fun hc => hp (by simp [hc])
      have hb : b ≠ '_' := fun hc => hq (by simp [hc])
      have hab : a = b := sepFlat_inj ha hb h.1
      subst hab
      have htl := ih bs (fun hc => hp (List.mem_cons_of_mem _ hc))
        (fun hc => hq (List.mem_cons_of_mem _ hc)) h.2
      rw [htl]

theorem flatten_eq_map_sepFlat (p : PyStr) (hb : '\\' ∉ p) :
    ((p.map (fun c => if c = '/' then '_' else c)).map
      (fun c => if c = '\\' then '_' else c)) = p.map sepFlat := by
  rw [List.map_map]
  apply List.map_congr_left
  intro a ha
  have hab : a ≠ '\\' := fun hc => hb (hc ▸ ha)
  by_cases h : a = '/' <;> simp [h, sepFlat, Function.comp, hab]

theorem gsn_on_clean (q sdk_id : PyStr) (hb : '\\' ∉ q ++ ".py".toList) :
    generate_saved_name (q ++ ".py".toList) sdk_id =
      sdk_id ++ "_".toList ++ (q.map sepFlat ++ ".md".toList) := by
  simp only [generate_saved_name]
  rw [flatten_eq_map_sepFlat _ hb]
  rw [List.map_append]
  have hpy : (".py".toList).map sepFlat = ".py".toList := by decide
  rw [hpy]
  rw [if_pos (List.isSuffixOf_iff_suffix.mpr (List.suffix_append _ _))]
  have hlen : (q.map sepFlat ++ ".py".toList).length - 3 = (q.map sepFlat).length := by
    simp
  rw [hlen, List.take_left]
  simp [List.append_assoc]

/-- C7 amended: for a fixed SDK identifier the saved-name derivation is
injective over relative paths that contain no `_` or `\` and end in
`.py` — the counterexample shows injectivity fails as soon as a path may
contain the flattening character `_` (or use `\` as a separator, or lack
the `.py` extension). -/
theorem c7_saved_name_injective_on_clean_paths (sdk_id p₁ p₂ : PyStr)
    (h1u : '_' ∉ p₁) (h2u : '_' ∉ p₂)
    (h1b : '\\' ∉ p₁) (h2b : '\\' ∉ p₂)
    (h1s : ".py".toList <:+ p₁) (h2s : ".py".toList <:+ p₂)
    (heq : generate_saved_name p₁ sdk_id = generate_saved_name p₂ sdk_id) :
    p₁ = p₂ := by
  obtain ⟨q₁, hq₁⟩ := h1s
  obtain ⟨q₂, hq₂⟩ := h2s
  subst hq₁; subst hq₂
  rw [gsn_on_clean _ _ h1b, gsn_on_clean _ _ h2b] at heq
  have h1 := List.append_cancel_left heq
  have h3 := List.append_cancel_right h1
  have hq : q₁ = q₂ := map_sepFlat_inj q₁ q₂
    (fun hc => h1u (List.mem_append_left _ hc))
    (fun hc => h2u (List.mem_append_left _ hc)) h3
  rw [hq]

/-- Witness for C7 at concrete clean paths. -/
theorem c7_saved_name_injective_on_clean_paths_witness :
    "a/b.py".toList = ("a/b.py".toList : PyStr) :=
  c7_saved_name_injective_on_clean_paths "sdk".toList "a/b.py".toList "a/b.py".toList
    (by decide) (by decide) (by decide) (by decide) (by decide) (by decide) rfl

theorem dictGet_eq_none_of_not_mem_keys {κ α : Type} [DecidableEq κ]
    (d : List (κ × α)) (k : κ) :
    k ∉ dictKeys d → dictGet d k = none := by
  induction d with
  | nil => intro _; rfl
  | cons p rest ih =>
    intro hk
    have hpk : p.1 ≠ k := fun h => hk (by simp [dictKeys, h])
    have hk' : k ∉ dictKeys rest := fun h => hk (by simp [dictKeys] at h ⊢; exact Or.inr h)
    simp [dictGet, hpk]
    exact ih hk'

/-- C4 counterexample: the claim states a load over a directory holding a
malformed record alongside a well-formed one skips the malformed record
and still loads the well-formed one, without raising.  Refuted: with
`bad_index.json` malformed and `good_index.json` well-formed, the load
raises the JSON decoding error and the good record is never installed. -/
theorem c4_load_aborts_on_malformed :
    (load_indices ⟨[]⟩
      [("bad_index.json".toList, .malformed),
       ("good_index.json".toList, .wellFormed ⟨"g".toList, [], [], [], [], [], [], []⟩)]).2 =
      some "json.JSONDecodeError".toList ∧
    dictGet (load_indices ⟨[]⟩
      [("bad_index.json".toList, .malformed),
       ("good_index.json".toList, .wellFormed ⟨"g".toList, [], [], [], [], [], [], []⟩)]).1.indices
      "g".toList = none := by decide

/-- C4 amended: `load_indices` has no handler around `json.load`, so the
load raises exactly when the directory holds a record matching
`*_index.json` whose content is malformed; records before the first
malformed one are installed, the rest of the load is aborted (the
counterexample exhibits the abort). -/
theorem c4_load_raises_iff_malformed (dir : List (PyStr × DiskRecord)) : ∀ (ixr : Indexer),
    (load_indices ixr dir).2.isSome = true ↔
      ∃ p ∈ dir, ("_index.json".toList).isSuffixOf p.1 = true ∧ p.2 = DiskRecord.malformed := by
  induction dir with
  | nil => intro ixr; simp [load_indices]
  | cons entry rest ih =>
    intro ixr
    obtain ⟨fname, rec⟩ := entry
    by_cases hg : ("_index.json".toList).isSuffixOf fname = true
    · cases rec with
      | malformed =>
        simp only [load_indices]
        rw [if_pos hg]
        constructor
        · intro _
          exact ⟨(fname, DiskRecord.malformed), List.mem_cons_self _ _, hg, rfl⟩
        · intro _
          rfl
      | wellFormed idx =>
        simp only [load_indices]
        rw [if_pos hg]
        have hrhs : (∃ p ∈ (fname, DiskRecord.wellFormed idx) :: rest,
              ("_index.json".toList).isSuffixOf p.1 = true ∧ p.2 = DiskRecord.malformed) ↔
            ∃ p ∈ rest, ("_index.json".toList).isSuffixOf p.1 = true ∧ p.2 = DiskRecord.malformed := by
          constructor
          · rintro ⟨p, hp, hsuf, hmal⟩
            rcases List.mem_cons.mp hp with h | h
            · rw [h] at hmal; simp at hmal
            · exact ⟨p, h, hsuf, hmal⟩
          · rintro ⟨p, hp, hsuf, hmal⟩
            exact ⟨p, List.mem_cons_of_mem _ hp, hsuf, hmal⟩
        rw [hrhs]
        by_cases hid : idx.sdk_id = []
        · rw [if_neg (fun hne => hne hid)]
          exact ih ixr
        · rw [if_pos hid]
          exact ih _
    · simp only [load_indices]
      rw [if_neg hg]
      have hrhs : (∃ p ∈ (fname, rec) :: rest,
            ("_index.json".toList).isSuffixOf p.1 = true ∧ p.2 = DiskRecord.malformed) ↔
          ∃ p ∈ rest, ("_index.json".toList).isSuffixOf p.1 = true ∧ p.2 = DiskRecord.malformed := by
        constructor
        · rintro ⟨p, hp, hsuf, hmal⟩
          rcases List.mem_cons.mp hp with h | h
          · rw [h] at hsuf; exact absurd hsuf hg
          · exact ⟨p, h, hsuf, hmal⟩
        · rintro ⟨p, hp, hsuf, hmal⟩
          exact ⟨p, List.mem_cons_of_mem _ hp, hsuf, hmal⟩
      rw [hrhs]
      exact ih ixr

theorem load_of_save_aux : ∀ (ps : List (PyStr × SdkIndex)), ∀ (ixr0 : Indexer),
    (dictKeys ps).Nodup →
    (∀ p ∈ ps, p.2.sdk_id = p.1) →
    (load_indices ixr0
        (ps.map fun p => (p.1 ++ "_index.json".toList, DiskRecord.wellFormed p.2))).2 = none ∧
    ∀ k, k ≠ [] →
      dictGet (load_indices ixr0
          (ps.map fun p => (p.1 ++ "_index.json".toList, DiskRecord.wellFormed p.2))).1.indices k =
        ((dictGet ps k).orElse (fun _ => dictGet ixr0.indices k)) := by
  intro ps
  induction ps with
  | nil =>
    intro ixr0 _ _
    constructor
    · rfl
    · intro k _
      simp [load_indices, dictGet]
  | cons p rest ih =>
    intro ixr0 hnd hwf
    have hsuf : ("_index.json".toList).isSuffixOf (p.1 ++ "_index.json".toList) = true :=
      List.isSuffixOf_iff_suffix.mpr (List.suffix_append _ _)
    have hid : p.2.sdk_id = p.1 := hwf p (List.mem_cons_self _ _)
    have hndr : (dictKeys rest).Nodup := by
      simp [dictKeys] at hnd ⊢
      exact hnd.2
    have hp1nr : p.1 ∉ dictKeys rest := by
      simp [dictKeys] at hnd ⊢
      intro x hx
      exact hnd.1 x hx
    have hwfr : ∀ q ∈ rest, q.2.sdk_id = q.1 := fun q hq => hwf q (List.mem_cons_of_mem _ hq)
    simp only [List.map_cons, load_indices]
    rw [if_pos hsuf, hid]
    by_cases hp1 : p.1 = []
    · rw [if_neg (fun hne => hne hp1)]
      have hr := ih ixr0 hndr hwfr
      refine ⟨hr.1, fun k hk => ?_⟩
      rw [hr.2 k hk]
      have hpk : p.1 ≠ k := fun h => hk (h ▸ hp1)
      simp [dictGet, hpk]
    · rw [if_pos hp1]
      have hr := ih ⟨dictSet ixr0.indices p.1 p.2⟩ hndr hwfr
      refine ⟨hr.1, fun k hk => ?_⟩
      rw [hr.2 k hk]
      by_cases hpk : p.1 = k
      · subst hpk
        have hrest : dictGet rest p.1 = none := dictGet_eq_none_of_not_mem_keys rest p.1 hp1nr
        simp [dictGet, hrest, dictGet_dictSet]
      · simp [dictGet, hpk, dictGet_dictSet]

/-- C6 counterexample: the claim quantifies the round-trip over every SDK
identifier.  Refuted at the empty identifier: an index built for the
empty `sdk_id` is saved as `_index.json`, but on load its `"sdk_id"`
value is falsy, so the record is skipped and the fresh store has no entry
for it. -/
theorem c6_roundtrip_fails_on_empty_id :
    dictGet (index_sdk ⟨[]⟩ [] [] ⟨none, none, []⟩).2.indices [] ≠ none ∧
    dictGet (load_indices ⟨[]⟩
      (save_indices (index_sdk ⟨[]⟩ [] [] ⟨none, none, []⟩).2)).1.indices [] = none := by
  decide

/-- C6 amended: for a store whose keys are distinct and whose indices
carry their own key as `sdk_id` (which every built index does), saving
and then loading into a fresh store reproduces the index of every
non-empty SDK identifier (and the load raises nothing); the round-trip
fails only for the empty identifier, whose record is skipped on load. -/
theorem c6_save_load_roundtrip (ixr : Indexer)
    (hnd : (dictKeys ixr.indices).Nodup)
    (hwf : ∀ p ∈ ixr.indices, p.2.sdk_id = p.1)
    (k : PyStr) (hk : k ≠ []) :
    dictGet (load_indices ⟨[]⟩ (save_indices ixr)).1.indices k = dictGet ixr.indices k ∧
    (load_indices ⟨[]⟩ (save_indices ixr)).2 = none := by
  have haux := load_of_save_aux ixr.indices ⟨[]⟩ hnd hwf
  constructor
  · rw [show save_indices ixr =
      ixr.indices.map (fun p => (p.1 ++ "_index.json".toList, DiskRecord.wellFormed p.2)) from rfl]
    rw [haux.2 k hk]
    cases hbc : dictGet ixr.indices k with
    | some v => rfl
    | none => simp [dictGet]
  · exact haux.1

/-- Witness for C6 at a concrete one-index store. -/
theorem c6_save_load_roundtrip_witness :
    dictGet (load_indices ⟨[]⟩
        (save_indices ⟨[("a".toList, ⟨"a".toList, [], [], [], [], [], [], []⟩)]⟩)).1.indices
      "a".toList =
    dictGet (⟨[("a".toList, ⟨"a".toList, [], [], [], [], [], [], []⟩)]⟩ : Indexer).indices
      "a".toList :=
  (c6_save_load_roundtrip ⟨[("a".toList, ⟨"a".toList, [], [], [], [], [], [], []⟩)]⟩
    (by decide) (by decide) "a".toList (by decide)).1

theorem collectClassBody_eq_takeWhile (base : Nat) (ls : List PyStr) :
    collectClassBody base ls =
      ls.takeWhile (fun l => decide (pyStrip l = []) || decide (base < indentOf l)) := by
  induction ls with
  | nil => rfl
  | cons line rest ih =>
    by_cases hb : pyStrip line = []
    · simp [collectClassBody, hb, List.takeWhile_cons, ih]
    · by_cases hi : indentOf line ≤ base
      · simp [collectClassBody, hb, hi, List.takeWhile_cons, Nat.not_lt.mpr hi]
      · simp [collectClassBody, hb, hi, List.takeWhile_cons, Nat.lt_of_not_le hi, ih]

/-- C8: confirmed.  For a document whose first line containing
`class <name>` sits at indentation 0, `getTypeSource`
(`_extract_class_from_content`) returns exactly that declaration line
followed by the contiguous block of subsequent lines taken while blank
(appended unconditionally) or indented strictly more than 0, stopping at
and excluding the first non-blank line with indentation at most 0. -/
theorem c8_type_source_block (content class_name : PyStr) (sl i : Nat)
    (hfind : (content.splitOn '\n').findIdx?
        (fun line => containsSub line ("class ".toList ++ class_name)) = some i)
    (hind : indentOf ((content.splitOn '\n').getD i []) = 0) :
    extract_class_from_content content class_name sl =
      List.intercalate ['\n']
        (((content.splitOn '\n').getD i []) ::
          ((content.splitOn '\n').drop (i + 1)).takeWhile
            (fun l => decide (pyStrip l = []) || decide (0 < indentOf l))) := by
  simp only [extract_class_from_content, hfind]
  rw [hind, collectClassBody_eq_takeWhile]

/-- Witness for C8 on a concrete document: a class at indentation 0 with
an indented body, an interior blank line, and a trailing top-level
statement that is excluded. -/
theorem c8_type_source_block_witness :
    extract_class_from_content "class A:\n  x\n\n  y\nz = 1".toList "A".toList 1 =
      List.intercalate ['\n']
        ((("class A:\n  x\n\n  y\nz = 1".toList : PyStr).splitOn '\n').getD 0 [] ::
          ((("class A:\n  x\n\n  y\nz = 1".toList : PyStr).splitOn '\n').drop 1).takeWhile
            (fun l => decide (pyStrip l = []) || decide (0 < indentOf l))) :=
  c8_type_source_block "class A:\n  x\n\n  y\nz = 1".toList "A".toList 1 0
    (by decide) (by decide)

theorem search_file_loop_bound (pattern : PreparedPattern) (cs : Bool) (N : Nat) :
    ∀ (ls : List PyStr) (acc : List PyStr) (n : Nat),
      acc.length < max N 1 →
      (search_file_loop pattern cs N acc n ls).length ≤ max N 1 := by
  intro ls
  induction ls with
  | nil => intro acc n h; simpa [search_file_loop] using Nat.le_of_lt h
  | cons line rest ih =>
    intro acc n h
    have hlen : (acc ++ [formatMatch n line]).length = acc.length + 1 := by simp
    have hmax : N ≤ max N 1 := Nat.le_max_left N 1
    by_cases hm : line_matches line pattern cs
    · simp only [search_file_loop, hm, if_true]
      by_cases hc : N ≤ (acc ++ [formatMatch n line]).length
      · rw [if_pos hc]
        omega
      · rw [if_neg hc]
        apply ih
        omega
    · simp only [search_file_loop, hm, if_false]
      exact ih acc (n + 1) h

theorem search_file_loop_stop (pattern : PreparedPattern) (cs : Bool) (N : Nat) :
    ∀ (ls extra : List PyStr) (acc : List PyStr) (n : Nat),
      acc.length < N →
      (search_file_loop pattern cs N acc n ls).length = N →
      search_file_loop pattern cs N acc n (ls ++ extra) =
        search_file_loop pattern cs N acc n ls := by
  intro ls
  induction ls with
  | nil =>
    intro extra acc n hlt hN
    simp [search_file_loop] at hN
    omega
  | cons line rest ih =>
    intro extra acc n hlt hN
    rw [List.cons_append]
    by_cases hm : line_matches line pattern cs
    · simp only [search_file_loop, hm, if_true] at hN ⊢
      by_cases hc : N ≤ (acc ++ [formatMatch n line]).length
      · rw [if_pos hc, if_pos hc]
      · rw [if_neg hc] at hN
        rw [if_neg hc, if_neg hc]
        have hlt' : (acc ++ [formatMatch n line]).length < N := Nat.lt_of_not_le hc
        exact ih extra _ _ hlt' hN
    · simp only [search_file_loop, hm, if_false] at hN ⊢
      exact ih extra acc (n + 1) hlt hN

/-- C9 counterexample: the claim bounds the number of matches for a file
by `maxMatchesPerFile` for every option value.  Refuted at
`maxMatchesPerFile = 0`: the loop appends a match before testing the cap,
so a matching file yields one match, exceeding the cap of 0. -/
theorem c9_zero_cap_exceeded :
    search_file ["hello".toList] (.lit "ell".toList) false 0 = ["Line 1: hello".toList] ∧
    ¬ ((search_file ["hello".toList] (.lit "ell".toList) false 0).length ≤ 0) := by
  decide

/-- C9 amended: a file's match list never exceeds `max(maxMatchesPerFile, 1)`
entries; for every `maxMatchesPerFile ≥ 1` it never exceeds
`maxMatchesPerFile` (the claimed bound), and once the cap is reached
scanning stops: lines after the capped prefix cannot change the result. -/
theorem c9_match_cap (lines : List PyStr) (pattern : PreparedPattern)
    (cs : Bool) (N : Nat) :
    (search_file lines pattern cs N).length ≤ max N 1 ∧
    (1 ≤ N → (search_file lines pattern cs N).length ≤ N) ∧
    (1 ≤ N → (search_file lines pattern cs N).length = N →
      ∀ extra, search_file (lines ++ extra) pattern cs N = search_file lines pattern cs N) := by
  refine ⟨?_, ?_, ?_⟩
  · exact search_file_loop_bound pattern cs N lines [] 1 (by simp)
  · intro hN
    have h := search_file_loop_bound pattern cs N lines [] 1 (by simp)
    rwa [Nat.max_eq_left hN] at h
  · intro hN hfull extra
    exact search_file_loop_stop pattern cs N lines extra [] 1
      (by simp only [List.length_nil]; omega) hfull

/-- Witness for C9 with cap 1 on a file with two matching lines. -/
theorem c9_match_cap_witness :
    (search_file ["hello".toList, "help".toList] (.lit "hel".toList) false 1).length ≤ 1 ∧
    search_file (["hello".toList, "help".toList] ++ ["felt".toList])
        (.lit "hel".toList) false 1 =
      search_file ["hello".toList, "help".toList] (.lit "hel".toList) false 1 :=
  ⟨(c9_match_cap ["hello".toList, "help".toList] (.lit "hel".toList) false 1).2.1
      (by decide),
   (c9_match_cap ["hello".toList, "help".toList] (.lit "hel".toList) false 1).2.2
      (by decide) (by decide) ["felt".toList]⟩

theorem dictSet_append_of_not_mem {κ α : Type} [DecidableEq κ]
    (d : List (κ × α)) (k : κ) (v : α) :
    k ∉ dictKeys d → dictSet d k v = d ++ [(k, v)] := by
  induction d with
  | nil => intro _; rfl
  | cons p rest ih =>
    intro hk
    have hpk : p.1 ≠ k := fun h => hk (by simp [dictKeys, h])
    have hk' : k ∉ dictKeys rest := fun h => hk (by simp [dictKeys] at h ⊢; exact Or.inr h)
    simp [dictSet, hpk, ih hk']

theorem search_code_of_bad_regex (ixr : Indexer) (rengine : RegexEngine)
    (fsys : FileSystem) (sdk_id query : PyStr) (opts : SearchOptions)
    (hrx : opts.regex = true) (hbad : rengine query = none)
    (hidx : (dictGet ixr.indices sdk_id).isSome) :
    search_code ixr rengine fsys sdk_id query opts =
      [("error".toList, ["Invalid regex pattern".toList])] := by
  obtain ⟨idx, hsome⟩ := Option.isSome_iff_exists.mp hidx
  simp [search_code, get_index, hsome, hrx, hbad]

theorem foldl_dictSet_all (f : PyStr × SdkIndex → List (PyStr × List PyStr)) :
    ∀ (ps : List (PyStr × SdkIndex)) (acc : List (PyStr × List (PyStr × List PyStr))),
      (dictKeys ps).Nodup →
      (∀ p ∈ ps, f p ≠ []) →
      (∀ p ∈ ps, p.1 ∉ dictKeys acc) →
      ps.foldl (fun all p => if f p ≠ [] then dictSet all p.1 (f p) else all) acc =
        acc ++ ps.map (fun p => (p.1, f p)) := by
  intro ps
  induction ps with
  | nil => intro acc _ _ _; simp
  | cons p rest ih =>
    intro acc hnd hne hdisj
    have hfp : f p ≠ [] := hne p (List.mem_cons_self _ _)
    have hpacc : p.1 ∉ dictKeys acc := hdisj p (List.mem_cons_self _ _)
    simp only [List.foldl_cons, if_pos hfp]
    rw [dictSet_append_of_not_mem acc p.1 (f p) hpacc]
    have hndr : (dictKeys rest).Nodup := by
      simp [dictKeys] at hnd ⊢
      exact hnd.2
    have hner : ∀ q ∈ rest, f q ≠ [] := fun q hq => hne q (List.mem_cons_of_mem _ hq)
    have hdisjr : ∀ q ∈ rest, q.1 ∉ dictKeys (acc ++ [(p.1, f p)]) := by
      intro q hq hmem
      simp [dictKeys] at hmem
      rcases hmem with h | h
      · exact hdisj q (List.mem_cons_of_mem _ hq) (by simpa [dictKeys] using h)
      · simp [dictKeys] at hnd
        have hq2 : (q.1, q.2) ∈ rest := by simpa using hq
        rw [h] at hq2
        exact hnd.1 q.2 hq2
    rw [ih (acc ++ [(p.1, f p)]) hndr hner hdisjr]
    simp

/-- C10: confirmed.  When the query is a syntactically invalid regex and
regex mode is on, `search_all_sdks` maps every SDK identifier present in
the store (with distinct keys, as a Python dict has) to the single-entry
error result; the error entry is non-empty, so no indexed SDK is omitted,
and the result does not depend on the documents filesystem, which is
never consulted (compilation fails before the data directory check). -/
theorem c10_invalid_regex_reaches_every_sdk (ixr : Indexer) (rengine : RegexEngine)
    (fsys : FileSystem) (query : PyStr) (opts : SearchOptions)
    (hrx : opts.regex = true)
    (hbad : rengine query = none)
    (hnd : (dictKeys ixr.indices).Nodup) :
    search_all_sdks ixr rengine fsys query opts =
      ixr.indices.map (fun p => (p.1, [("error".toList, ["Invalid regex pattern".toList])])) := by
  have herr : ∀ p ∈ ixr.indices,
      search_code ixr rengine fsys p.1 query opts =
        [("error".toList, ["Invalid regex pattern".toList])] := by
    intro p hp
    apply search_code_of_bad_regex ixr rengine fsys p.1 query opts hrx hbad
    exact dictGet_isSome_of_mem_keys ixr.indices p.1 (by simp [dictKeys]; exact ⟨p.2, hp⟩)
  have h := foldl_dictSet_all (fun p => search_code ixr rengine fsys p.1 query opts)
    ixr.indices [] hnd
    (fun p hp => by
      show search_code ixr rengine fsys p.1 query opts ≠ []
      rw [herr p hp]; simp)
    (fun p _ => by simp [dictKeys])
  calc search_all_sdks ixr rengine fsys query opts
      = ixr.indices.foldl
          (fun all p => if search_code ixr rengine fsys p.1 query opts ≠ [] then
            dictSet all p.1 (search_code ixr rengine fsys p.1 query opts) else all) [] := rfl
    _ = [] ++ ixr.indices.map
          (fun p => (p.1, search_code ixr rengine fsys p.1 query opts)) := h
    _ = ixr.indices.map (fun p => (p.1, [("error".toList, ["Invalid regex pattern".toList])])) := by
        simp only [List.nil_append]
        apply List.map_congr_left
        intro p hp
        rw [herr p hp]

/-- Witness for C10: two indexed SDKs, the invalid pattern `(` under the
concrete engine, and a filesystem with no directories at all. -/
theorem c10_invalid_regex_reaches_every_sdk_witness :
    search_all_sdks
      ⟨[("a".toList, ⟨"a".toList, [], [], [], [], [], [], []⟩),
        ("b".toList, ⟨"b".toList, [], [], [], [], [], [], []⟩)]⟩
      modelRe (fun _ => none) "(".toList ⟨false, 10, true⟩ =
      ([("a".toList, ⟨"a".toList, [], [], [], [], [], [], []⟩),
        ("b".toList, ⟨"b".toList, [], [], [], [], [], [], []⟩)] :
          List (PyStr × SdkIndex)).map
        (fun p => (p.1, [("error".toList, ["Invalid regex pattern".toList])])) := by
  have hbad : modelRe ("(".toList) = none := by
    unfold modelRe
    rw [show parseRegex ("(".toList) = none from by decide]
    rfl
  exact c10_invalid_regex_reaches_every_sdk
    ⟨[("a".toList, ⟨"a".toList, [], [], [], [], [], [], []⟩),
      ("b".toList, ⟨"b".toList, [], [], [], [], [], [], []⟩)]⟩
    modelRe (fun _ => none) "(".toList ⟨false, 10, true⟩ rfl hbad (by decide)

theorem dictGet_dictExtend (d : List (PyStr × List PyStr)) (k : PyStr) (v : List PyStr)
    (k' : PyStr) :
    dictGet (dictExtend d k v) k' =
      if k = k' then some ((dictGet d k').getD [] ++ v) else dictGet d k' := by
  unfold dictExtend
  by_cases hk : k = k'
  · subst hk
    cases hd : dictGet d k with
    | none => simp [hd, dictGet_dictSet]
    | some olds => simp [hd, dictGet_dictSet]
  · cases hd : dictGet d k with
    | none => simp [hd, dictGet_dictSet, hk]
    | some olds => simp [hd, dictGet_dictSet, hk]

theorem extendResults_getD (k : PyStr) :
    ∀ (results : List (PyStr × List PyStr)) (acc : List (PyStr × List PyStr)),
      (dictKeys results).Nodup →
      (dictGet (results.foldl (fun a fm => dictExtend a fm.1 fm.2) acc) k).getD [] =
        (dictGet acc k).getD [] ++ (dictGet results k).getD [] := by
  intro results
  induction results with
  | nil => intro acc _; simp [dictGet]
  | cons fm rest ih =>
    intro acc hnd
    have hndr : (dictKeys rest).Nodup := by
      simp [dictKeys] at hnd ⊢
      exact hnd.2
    simp only [List.foldl_cons]
    rw [ih (dictExtend acc fm.1 fm.2) hndr]
    by_cases hk : fm.1 = k
    · have hkr : k ∉ dictKeys rest := by
        simp [dictKeys] at hnd ⊢
        intro x hx
        exact hnd.1 x (hk ▸ hx)
      have hrest : dictGet rest k = none := dictGet_eq_none_of_not_mem_keys rest k hkr
      rw [dictGet_dictExtend, if_pos hk, hrest]
      simp [dictGet, hk]
    · rw [dictGet_dictExtend, if_neg hk]
      simp [dictGet, hk]

theorem extendResults_isSome (k : PyStr) :
    ∀ (results : List (PyStr × List PyStr)) (acc : List (PyStr × List PyStr)),
      (dictKeys results).Nodup →
      ((dictGet (results.foldl (fun a fm => dictExtend a fm.1 fm.2) acc) k).isSome ↔
        (dictGet acc k).isSome ∨ (dictGet results k).isSome) := by
  intro results
  induction results with
  | nil => intro acc _; simp [dictGet]
  | cons fm rest ih =>
    intro acc hnd
    have hndr : (dictKeys rest).Nodup := by
      simp [dictKeys] at hnd ⊢
      exact hnd.2
    simp only [List.foldl_cons]
    rw [ih (dictExtend acc fm.1 fm.2) hndr]
    by_cases hk : fm.1 = k
    · have hkr : k ∉ dictKeys rest := by
        simp [dictKeys] at hnd ⊢
        intro x hx
        exact hnd.1 x (hk ▸ hx)
      have hrest : dictGet rest k = none := dictGet_eq_none_of_not_mem_keys rest k hkr
      rw [dictGet_dictExtend, if_pos hk, hrest]
      simp [dictGet, hk]
    · rw [dictGet_dictExtend, if_neg hk]
      simp [dictGet, hk]

theorem scan_keys_nodup (dir : PyStr → Option (List PyStr)) (pattern : PreparedPattern)
    (cs : Bool) (N : Nat) :
    ∀ (files : List FileInfo) (acc : List (PyStr × List PyStr)),
      (dictKeys acc).Nodup →
      (dictKeys (files.foldl
        (fun results fi =>
          if fi.saved_as = [] then results
          else
            match dir fi.saved_as with
            | none => results
            | some lines =>
              let found := search_file lines pattern cs N
              if found ≠ [] then dictSet results fi.saved_as found else results)
        acc)).Nodup := by
  intro files
  induction files with
  | nil => intro acc h; exact h
  | cons fi rest ih =>
    intro acc hacc
    simp only [List.foldl_cons]
    apply ih
    by_cases hsv : fi.saved_as = []
    · simpa [hsv] using hacc
    · rw [if_neg hsv]
      cases hd : dir fi.saved_as with
      | none => exact hacc
      | some lines =>
        simp only []
        by_cases hf : search_file lines pattern cs N ≠ []
        · rw [if_pos hf]
          by_cases hmem : fi.saved_as ∈ dictKeys acc
          · rwa [dictKeys_dictSet_of_mem acc _ _ hmem]
          · rw [dictKeys_dictSet_of_not_mem acc _ _ hmem]
            simp [List.nodup_append, hacc, hmem]
        · rw [if_neg hf]
          exact hacc

theorem search_code_keys_nodup (ixr : Indexer) (rengine : RegexEngine) (fsys : FileSystem)
    (sdk_id query : PyStr) (opts : SearchOptions) :
    (dictKeys (search_code ixr rengine fsys sdk_id query opts)).Nodup := by
  unfold search_code
  cases get_index ixr sdk_id with
  | none => simp [dictKeys]
  | some index =>
    by_cases hrx : opts.regex = true
    · simp only [hrx, if_true]
      cases rengine query with
      | none => simp [dictKeys]
      | some compiled =>
        cases fsys sdk_id with
        | none => simp [dictKeys]
        | some dir =>
          simp only [search_code_scan]
          exact scan_keys_nodup dir _ opts.case_sensitive opts.max_results_per_file
            index.files [] (by simp [dictKeys])
    · simp only [hrx, if_false]
      cases fsys sdk_id with
      | none => simp [dictKeys]
      | some dir =>
        simp only [search_code_scan]
        exact scan_keys_nodup dir _ opts.case_sensitive opts.max_results_per_file
          index.files [] (by simp [dictKeys])

/-- C5 counterexample: the claim states `findExamples` deduplicates per
file.  Refuted: on a one-file SDK whose document is the single line
`def foo():`, both the declaration-of pattern `def.*foo` and the call-of
pattern `foo\s*\(` match line 1, and the returned per-file list contains
the same match line twice. -/
theorem c5_find_examples_duplicates :
    find_examples
      ⟨[("s".toList,
        ⟨"s".toList, "s".toList, [],
          [⟨"f.py".toList, "/x/f.py".toList, [], [], [], 0, 1, "s_f.md".toList⟩],
          [], [], [], []⟩)]⟩
      modelRe
      (fun sdk =>
        if sdk = "s".toList then
          some (fun f => if f = "s_f.md".toList then some ["def foo():".toList] else none)
        else none)
      "s".toList "foo".toList =
      [("s_f.md".toList,
        ["Line 1: def foo():".toList, "Line 1: def foo():".toList])] := by decide

/-- C5 amended: `findExamples` runs the five pattern queries
(declaration-of, type-named, call-of, decoration-of, member-access-of)
through `searchCode` in regex mode with at most 5 matches per file per
pattern, and the per-file result is the concatenation of the five
queries' match lists in battery order, duplicates retained (a line
matching several patterns appears once per matching pattern); a file
appears in the result exactly when some query matched it. -/
theorem c5_find_examples_concatenates (ixr : Indexer) (rengine : RegexEngine)
    (fsys : FileSystem) (sdk_id topic file : PyStr) :
    (dictGet (find_examples ixr rengine fsys sdk_id topic) file).getD [] =
      (dictGet (search_code ixr rengine fsys sdk_id
        ("def.*".toList ++ topic) ⟨false, 5, true⟩) file).getD [] ++
      (dictGet (search_code ixr rengine fsys sdk_id
        ("class.*".toList ++ topic) ⟨false, 5, true⟩) file).getD [] ++
      (dictGet (search_code ixr rengine fsys sdk_id
        (topic ++ "\\s*\\(".toList) ⟨false, 5, true⟩) file).getD [] ++
      (dictGet (search_code ixr rengine fsys sdk_id
        ("@".toList ++ topic) ⟨false, 5, true⟩) file).getD [] ++
      (dictGet (search_code ixr rengine fsys sdk_id
        ("self\\.".toList ++ topic) ⟨false, 5, true⟩) file).getD [] ∧
    ((dictGet (find_examples ixr rengine fsys sdk_id topic) file).isSome ↔
      (dictGet (search_code ixr rengine fsys sdk_id
        ("def.*".toList ++ topic) ⟨false, 5, true⟩) file).isSome ∨
      (dictGet (search_code ixr rengine fsys sdk_id
        ("class.*".toList ++ topic) ⟨false, 5, true⟩) file).isSome ∨
      (dictGet (search_code ixr rengine fsys sdk_id
        (topic ++ "\\s*\\(".toList) ⟨false, 5, true⟩) file).isSome ∨
      (dictGet (search_code ixr rengine fsys sdk_id
        ("@".toList ++ topic) ⟨false, 5, true⟩) file).isSome ∨
      (dictGet (search_code ixr rengine fsys sdk_id
        ("self\\.".toList ++ topic) ⟨false, 5, true⟩) file).isSome) := by
  constructor
  · simp only [find_examples, List.foldl_cons, List.foldl_nil]
    rw [extendResults_getD file _ _ (search_code_keys_nodup ixr rengine fsys sdk_id _ _)]
    rw [extendResults_getD file _ _ (search_code_keys_nodup ixr rengine fsys sdk_id _ _)]
    rw [extendResults_getD file _ _ (search_code_keys_nodup ixr rengine fsys sdk_id _ _)]
    rw [extendResults_getD file _ _ (search_code_keys_nodup ixr rengine fsys sdk_id _ _)]
    rw [extendResults_getD file _ _ (search_code_keys_nodup ixr rengine fsys sdk_id _ _)]
    simp [dictGet]
  · simp only [find_examples, List.foldl_cons, List.foldl_nil]
    rw [extendResults_isSome file _ _ (search_code_keys_nodup ixr rengine fsys sdk_id _ _)]
    rw [extendResults_isSome file _ _ (search_code_keys_nodup ixr rengine fsys sdk_id _ _)]
    rw [extendResults_isSome file _ _ (search_code_keys_nodup ixr rengine fsys sdk_id _ _)]
    rw [extendResults_isSome file _ _ (search_code_keys_nodup ixr rengine fsys sdk_id _ _)]
    rw [extendResults_isSome file _ _ (search_code_keys_nodup ixr rengine fsys sdk_id _ _)]
    simp [dictGet]
    tauto
